import Mathlib

set_option maxHeartbeats 1000000

/-!
Shallow embedding of the cubes schema-migration engine.

The definitions below translate src/db/migration.go and src/db/sync.go.
The Snapshot Builder (the functions GetSnapshotWithAction and
GetCurrentSnapshot, the helpers getTableFromSnapshot and getColumnFromTable,
and the Snapshot and Table types) is called from src/db but its source file is
not part of the repository snapshot; those definitions are modelled from the
specification (spec.md section 4.2) and each carries a doc comment saying so.

Machine-level conventions: the target store transaction is modelled by the
list of DDL statements executed inside it plus the list of rows inserted into
the bookkeeping table; executing a well-formed DDL statement is modelled as
succeeding (failures of the engine itself, parameter validation and snapshot
reconstruction, are modelled exactly as in the source).  SQL string ordering
(ORDER BY id) and Go string comparison are modelled by lexicographic
comparison of character code points.
-/

deriving instance DecidableEq for Except

/-- Character comparison by code point, used to model Go and SQL string
ordering. -/
def charLtb (a b : Char) : Bool := a.toNat < b.toNat

/-- Lexicographic comparison of character lists. -/
def charsLtb : List Char → List Char → Bool
  | [], [] => false
  | [], _ :: _ => true
  | _ :: _, [] => false
  | x :: xs, y :: ys =>
    if charLtb x y then true
    else if charLtb y x then false
    else charsLtb xs ys

/-- Lexicographic string comparison; models the order used by
sort.Strings (migration.go 161) and ORDER BY id (sync.go 271). -/
def strLtb (a b : String) : Bool := charsLtb a.data b.data

/-- Model of Go Unicode whitespace for strings.TrimSpace (ASCII cases). -/
def isSpaceChar (c : Char) : Bool :=
  c.toNat = 32 || c.toNat = 9 || c.toNat = 10 || c.toNat = 13

/-- Model of strings.TrimSpace: removes leading and trailing whitespace. -/
def trimSpace (s : String) : String :=
  ⟨((s.data.dropWhile isSpaceChar).reverse.dropWhile isSpaceChar).reverse⟩

/-- AddTableParams (migration.go 20-22). -/
structure AddTableParams where
  Name : String
  deriving DecidableEq

/-- DeleteTableParams (migration.go 24-26). -/
structure DeleteTableParams where
  Name : String
  deriving DecidableEq

/-- AddColumnParams (migration.go 28-34); the Go field Type is rendered
colType because Type is reserved in Lean. -/
structure AddColumnParams where
  Table : String
  Column : String
  colType : String
  IsNullable : Bool
  DefaultValue : String
  deriving DecidableEq

/-- DeleteColumnParams (migration.go 36-39). -/
structure DeleteColumnParams where
  Table : String
  Column : String
  deriving DecidableEq

/-- AddPrimaryKeyParams (migration.go 41-44). -/
structure AddPrimaryKeyParams where
  Table : String
  Column : String
  deriving DecidableEq

/-- DeletePrimaryKeyParams (migration.go 46-49). -/
structure DeletePrimaryKeyParams where
  Table : String
  Column : String
  deriving DecidableEq

/-- JSON scalar values occurring in action parameter objects. -/
inductive JVal where
  | jstr (s : String)
  | jbool (b : Bool)
  deriving DecidableEq

/-- Model of a json.RawMessage holding action parameters: either a JSON
object given by its fields, or a syntactically malformed message on which
any json.Unmarshal call fails. -/
inductive Json where
  | jobj (fields : List (String × JVal))
  | jmalformed
  deriving DecidableEq

/-- DbAction (migration.go 56-59): a method tag with raw JSON parameters. -/
structure DbAction where
  Method : String
  Params : Json
  deriving DecidableEq

/-- Migration (migration.go 61-66). -/
structure Migration where
  SchemaVersion : String
  Id : String
  Description : String
  Actions : List DbAction
  deriving DecidableEq

/-- Field lookup in a JSON object, mirroring encoding/json: a missing field
leaves the Go zero value, a field of the wrong type is an unmarshal error. -/
def getStrField (fields : List (String × JVal)) (key : String) : Except String String :=
  match (fields.find? (fun f => f.fst == key)).map Prod.snd with
  | none => .ok ""
  | some (.jstr s) => .ok s
  | some _ => .error ("cannot unmarshal field " ++ key)

/-- Boolean field lookup, mirroring encoding/json (zero value false). -/
def getBoolField (fields : List (String × JVal)) (key : String) : Except String Bool :=
  match (fields.find? (fun f => f.fst == key)).map Prod.snd with
  | none => .ok false
  | some (.jbool b) => .ok b
  | some _ => .error ("cannot unmarshal field " ++ key)

/-- json.Unmarshal into AddTableParams (tag "name"). -/
def unmarshalAddTableParams : Json → Except String AddTableParams
  | .jmalformed => .error "invalid json"
  | .jobj fields => do
    let n ← getStrField fields "name"
    .ok { Name := n }

/-- json.Unmarshal into DeleteTableParams (tag "name"). -/
def unmarshalDeleteTableParams : Json → Except String DeleteTableParams
  | .jmalformed => .error "invalid json"
  | .jobj fields => do
    let n ← getStrField fields "name"
    .ok { Name := n }

/-- json.Unmarshal into AddColumnParams. -/
def unmarshalAddColumnParams : Json → Except String AddColumnParams
  | .jmalformed => .error "invalid json"
  | .jobj fields => do
    let t ← getStrField fields "table"
    let c ← getStrField fields "column"
    let ty ← getStrField fields "type"
    let nl ← getBoolField fields "isNullable"
    let dv ← getStrField fields "defaultValue"
    .ok { Table := t, Column := c, colType := ty, IsNullable := nl, DefaultValue := dv }

/-- json.Unmarshal into DeleteColumnParams. -/
def unmarshalDeleteColumnParams : Json → Except String DeleteColumnParams
  | .jmalformed => .error "invalid json"
  | .jobj fields => do
    let t ← getStrField fields "table"
    let c ← getStrField fields "column"
    .ok { Table := t, Column := c }

/-- json.Unmarshal into AddPrimaryKeyParams. -/
def unmarshalAddPrimaryKeyParams : Json → Except String AddPrimaryKeyParams
  | .jmalformed => .error "invalid json"
  | .jobj fields => do
    let t ← getStrField fields "table"
    let c ← getStrField fields "column"
    .ok { Table := t, Column := c }

/-- json.Unmarshal into DeletePrimaryKeyParams. -/
def unmarshalDeletePrimaryKeyParams : Json → Except String DeletePrimaryKeyParams
  | .jmalformed => .error "invalid json"
  | .jobj fields => do
    let t ← getStrField fields "table"
    let c ← getStrField fields "column"
    .ok { Table := t, Column := c }

/-- Decoded action: the tagged union over the six recognized action kinds. -/
inductive ActionV where
  | addTable (p : AddTableParams)
  | deleteTable (p : DeleteTableParams)
  | addColumn (p : AddColumnParams)
  | deleteColumn (p : DeleteColumnParams)
  | addPrimaryKey (p : AddPrimaryKeyParams)
  | deletePrimaryKey (p : DeletePrimaryKeyParams)
  deriving DecidableEq

/-- Method tag of a decoded action, as used by the public append wrappers
(migration.go 221-324). -/
def methodOf : ActionV → String
  | .addTable _ => "addTable"
  | .deleteTable _ => "deleteTable"
  | .addColumn _ => "addColumn"
  | .deleteColumn _ => "deleteColumn"
  | .addPrimaryKey _ => "addPrimaryKey"
  | .deletePrimaryKey _ => "deletePrimaryKey"

/-- json.Marshal of action parameters, as performed by
addActionToMigrationFile (migration.go 201). -/
def encodeParams : ActionV → Json
  | .addTable p => .jobj [("name", .jstr p.Name)]
  | .deleteTable p => .jobj [("name", .jstr p.Name)]
  | .addColumn p => .jobj [("table", .jstr p.Table), ("column", .jstr p.Column),
      ("type", .jstr p.colType), ("isNullable", .jbool p.IsNullable),
      ("defaultValue", .jstr p.DefaultValue)]
  | .deleteColumn p => .jobj [("table", .jstr p.Table), ("column", .jstr p.Column)]
  | .addPrimaryKey p => .jobj [("table", .jstr p.Table), ("column", .jstr p.Column)]
  | .deletePrimaryKey p => .jobj [("table", .jstr p.Table), ("column", .jstr p.Column)]

/-- The raw DbAction record persisted for a decoded action. -/
def mkAction (v : ActionV) : DbAction := { Method := methodOf v, Params := encodeParams v }

/-- decodeAction (sync.go 321-381): switches on the method string and
unmarshals the matching parameter struct; a method that matches none of the
six cases falls through to the final return and yields an empty method, no
parameters and no error. -/
def decodeAction (method : String) (params : Json) : Except String (String × Option ActionV) :=
  if method = "addTable" then
    match unmarshalAddTableParams params with
    | .error e => .error e
    | .ok p => .ok (method, some (.addTable p))
  else if method = "deleteTable" then
    match unmarshalDeleteTableParams params with
    | .error e => .error e
    | .ok p => .ok (method, some (.deleteTable p))
  else if method = "addColumn" then
    match unmarshalAddColumnParams params with
    | .error e => .error e
    | .ok p => .ok (method, some (.addColumn p))
  else if method = "deleteColumn" then
    match unmarshalDeleteColumnParams params with
    | .error e => .error e
    | .ok p => .ok (method, some (.deleteColumn p))
  else if method = "addPrimaryKey" then
    match unmarshalAddPrimaryKeyParams params with
    | .error e => .error e
    | .ok p => .ok (method, some (.addPrimaryKey p))
  else if method = "deletePrimaryKey" then
    match unmarshalDeletePrimaryKeyParams params with
    | .error e => .error e
    | .ok p => .ok (method, some (.deletePrimaryKey p))
  else
    .ok ("", none)

/-- A DDL statement executed on the target store, one constructor per
transaction.Exec call site in sync.go; each constructor carries the values
interpolated into the corresponding query template. -/
inductive DDL where
  | createTable (name : String)
  | dropTable (name : String)
  | alterAddColumn (table column colType notNullParam defaultValueParam : String)
  | alterDropColumn (table column : String)
  | dropConstraintPkey (table : String)
  | addConstraintPkey (table : String) (keys : List String)
  deriving DecidableEq

/-- Modelled from the spec: the column record of the derived Snapshot state
(spec.md section 3); the Snapshot Builder source is not under src. -/
structure ColumnDef where
  name : String
  colType : String
  isNullable : Bool
  defaultValue : String
  deriving DecidableEq

/-- Modelled from the spec: the table record of the derived Snapshot state
(spec.md section 3): named table, ordered columns, ordered primary-key
column names. -/
structure TableDef where
  name : String
  columns : List ColumnDef
  primaryKeys : List String
  deriving DecidableEq

/-- Modelled from the spec: a Snapshot is the set of tables, kept here in
creation order. -/
abbrev Snapshot : Type := List TableDef

/-- Modelled from the spec: Snapshot Builder errors (spec.md section 7):
ConflictError and NotFoundError. -/
inductive SnapError where
  | conflict (msg : String)
  | notFound (msg : String)
  deriving DecidableEq

/-- Modelled from the spec: getTableFromSnapshot, the table lookup used by
sync.go 98 and 150. -/
def getTableFromSnapshot (s : Snapshot) (name : String) : Option TableDef :=
  List.find? (fun tb => tb.name == name) s

/-- Modelled from the spec: getColumnFromTable, the column lookup used by
sync.go 103. -/
def getColumnFromTable (tb : TableDef) (name : String) : Option ColumnDef :=
  tb.columns.find? (fun c => c.name == name)

/-- Replaces the table with the given name by its image under f, leaving all
other tables unchanged. -/
def updateTable (s : Snapshot) (name : String) (f : TableDef → TableDef) : Snapshot :=
  List.map (fun tb => if tb.name == name then f tb else tb) s

/-- The table update performed by the DeleteColumn fold rule: the column is
removed and, when it was listed as a primary key, it is removed from the
ordered key list as well (filtering keeps every other entry in order). -/
def deleteColumnUpd (tb : TableDef) (column : String) : TableDef :=
  { tb with
    columns := tb.columns.filter (fun c => c.name != column),
    primaryKeys := tb.primaryKeys.filter (fun k => k != column) }

/-- Modelled from the spec: the pure fold rule of the Snapshot Builder
(spec.md section 4.2, rule table). -/
def applySnapshotAction (s : Snapshot) : ActionV → Except SnapError Snapshot
  | .addTable p =>
    match getTableFromSnapshot s p.Name with
    | some _ => .error (.conflict ("table " ++ p.Name))
    | none => .ok (s ++ [{ name := p.Name, columns := [], primaryKeys := [] }])
  | .deleteTable p =>
    match getTableFromSnapshot s p.Name with
    | none => .error (.notFound ("table " ++ p.Name))
    | some _ => .ok (List.filter (fun tb => tb.name != p.Name) s)
  | .addColumn p =>
    match getTableFromSnapshot s p.Table with
    | none => .error (.notFound ("table " ++ p.Table))
    | some tb =>
      match getColumnFromTable tb p.Column with
      | some _ => .error (.conflict ("column " ++ p.Column))
      | none => .ok (updateTable s p.Table (fun x =>
          { x with columns := x.columns ++
              [{ name := p.Column, colType := p.colType,
                 isNullable := p.IsNullable, defaultValue := p.DefaultValue }] }))
  | .deleteColumn p =>
    match getTableFromSnapshot s p.Table with
    | none => .error (.notFound ("table " ++ p.Table))
    | some tb =>
      match getColumnFromTable tb p.Column with
      | none => .error (.notFound ("column " ++ p.Column))
      | some _ => .ok (updateTable s p.Table (fun x => deleteColumnUpd x p.Column))
  | .addPrimaryKey p =>
    match getTableFromSnapshot s p.Table with
    | none => .error (.notFound ("table " ++ p.Table))
    | some tb =>
      match getColumnFromTable tb p.Column with
      | none => .error (.notFound ("column " ++ p.Column))
      | some _ =>
        if p.Column ∈ tb.primaryKeys then .error (.conflict ("primary key " ++ p.Column))
        else .ok (updateTable s p.Table (fun x =>
          { x with primaryKeys := x.primaryKeys ++ [p.Column] }))
  | .deletePrimaryKey p =>
    match getTableFromSnapshot s p.Table with
    | none => .error (.notFound ("table " ++ p.Table))
    | some tb =>
      if p.Column ∈ tb.primaryKeys then
        .ok (updateTable s p.Table (fun x =>
          { x with primaryKeys := x.primaryKeys.filter (fun k => k != p.Column) }))
      else .error (.notFound ("primary key " ++ p.Column))

/-- Rendering of Snapshot Builder errors into the string errors that the
engine propagates. -/
def snapErrToString : SnapError → String
  | .conflict m => "conflict: " ++ m
  | .notFound m => "not found: " ++ m

/-- Modelled from the spec: the fold over a raw action sequence.  Each action
is decoded first (decode errors propagate); an action whose method is not one
of the six kinds decodes to no value and leaves the state unchanged, matching
the skip behavior of the apply loop. -/
def foldSnapshotActions (s : Snapshot) : List DbAction → Except String Snapshot
  | [] => .ok s
  | a :: rest =>
    match decodeAction a.Method a.Params with
    | .error e => .error e
    | .ok (_, none) => foldSnapshotActions s rest
    | .ok (_, some v) =>
      match applySnapshotAction s v with
      | .error e => .error (snapErrToString e)
      | .ok s2 => foldSnapshotActions s2 rest

/-- All actions of the ordered log, in log order. -/
def allActions (log : List Migration) : List DbAction :=
  (log.map Migration.Actions).flatten

/-- The committed action prefix strictly before action index idx of the
migration with the given id: all actions of earlier migrations plus the
first idx actions of that migration. -/
def actionsUpTo : List Migration → String → Nat → List DbAction
  | [], _, _ => []
  | m :: rest, mid, idx =>
    if m.Id == mid then m.Actions.take idx
    else m.Actions ++ actionsUpTo rest mid idx

/-- Modelled from the spec: snapshotAsOf (spec.md section 4.2 shape (a)) -
replay the committed log up to and excluding the given action.  This stands
for the call GetSnapshotWithAction(migrationId, actionIndex) made by
sync.go 93 and 145, whose defining source file is not under src. -/
def snapshotAsOf (log : List Migration) (mid : String) (idx : Nat) : Except String Snapshot :=
  foldSnapshotActions [] (actionsUpTo log mid idx)

/-- Modelled from the spec: GetCurrentSnapshot - the sanity replay of the
entire log (spec.md section 4.3 step 5), called at sync.go 235. -/
def GetCurrentSnapshot (log : List Migration) : Except String Snapshot :=
  foldSnapshotActions [] (allActions log)

/-- Modelled from the spec: previewWithHypothetical (spec.md section 4.2
shape (b)) - replay the entire current log plus one trailing candidate
action.  This stands for the call GetSnapshotWithAction(method, params) made
by migration.go 196. -/
def previewWithHypothetical (log : List Migration) (v : ActionV) : Except String Snapshot :=
  match GetCurrentSnapshot log with
  | .error e => .error e
  | .ok s =>
    match applySnapshotAction s v with
    | .error e => .error (snapErrToString e)
    | .ok s2 => .ok s2

/-- applyAddTable (sync.go 11-24). -/
def applyAddTable (params : AddTableParams) : Except String (List DDL) :=
  if trimSpace params.Name = "" then .error "table is required"
  else .ok [.createTable params.Name]

/-- applyDeleteTable (sync.go 26-40). -/
def applyDeleteTable (params : DeleteTableParams) : Except String (List DDL) :=
  if trimSpace params.Name = "" then .error "table is required"
  else .ok [.dropTable params.Name]

/-- applyAddColumn (sync.go 42-74): validates table and column names, then
builds the ALTER TABLE ADD COLUMN statement.  notNullParam is the string
NOT NULL exactly when IsNullable is false (sync.go 53-56); defaultValueParam
is the DEFAULT clause exactly when DefaultValue is non-empty (sync.go 58-61,
including the stray semicolon of the source template). -/
def applyAddColumn (params : AddColumnParams) : Except String (List DDL) :=
  if trimSpace params.Table = "" then .error "table is required"
  else if trimSpace params.Column = "" then .error "column is required"
  else
    let notNullParam := if !params.IsNullable then "NOT NULL" else ""
    let defaultValueParam :=
      if params.DefaultValue ≠ "" then "DEFAULT " ++ params.DefaultValue ++ ";" else ""
    .ok [.alterAddColumn params.Table params.Column params.colType notNullParam defaultValueParam]

/-- applyDeleteColumn (sync.go 76-89): no validation, one statement. -/
def applyDeleteColumn (params : DeleteColumnParams) : Except String (List DDL) :=
  .ok [.alterDropColumn params.Table params.Column]

/-- The statement part of applyAddPrimaryKey (sync.go 98-140), given the
snapshot returned for (migrationId, actionIndex): table and column must
exist in it; the pkey constraint is dropped only when the snapshot lists
more than one primary-key column (sync.go 108); the recreated constraint
covers exactly the key columns listed in that snapshot (sync.go 120-133). -/
def applyAddPrimaryKeyWith (snapshot : Snapshot) (params : AddPrimaryKeyParams) :
    Except String (List DDL) :=
  match getTableFromSnapshot snapshot params.Table with
  | none => .error ("table " ++ params.Table ++ " does not exist")
  | some table =>
    match getColumnFromTable table params.Column with
    | none => .error ("column " ++ params.Column ++ " does not exist")
    | some _ =>
      .ok ((if table.primaryKeys.length > 1 then [DDL.dropConstraintPkey params.Table] else [])
        ++ [DDL.addConstraintPkey params.Table table.primaryKeys])

/-- applyAddPrimaryKey (sync.go 91-141): obtains the snapshot for the action
position, then emits the constraint DDL. -/
def applyAddPrimaryKey (log : List Migration) (migrationId : String) (actionIndex : Nat)
    (params : AddPrimaryKeyParams) : Except String (List DDL) :=
  match snapshotAsOf log migrationId actionIndex with
  | .error e => .error e
  | .ok snapshot => applyAddPrimaryKeyWith snapshot params

/-- The statement part of applyDeletePrimaryKey (sync.go 150-189): the table
must exist in the snapshot; the pkey constraint is dropped unconditionally
(sync.go 155-163) and then recreated, also unconditionally (sync.go 179-187),
over the snapshot key columns with the target column filtered out
(sync.go 165-177). -/
def applyDeletePrimaryKeyWith (snapshot : Snapshot) (params : DeletePrimaryKeyParams) :
    Except String (List DDL) :=
  match getTableFromSnapshot snapshot params.Table with
  | none => .error ("table " ++ params.Table ++ " does not exist")
  | some table =>
    .ok [DDL.dropConstraintPkey params.Table,
         DDL.addConstraintPkey params.Table
           (table.primaryKeys.filter (fun k => k != params.Column))]

/-- applyDeletePrimaryKey (sync.go 143-190). -/
def applyDeletePrimaryKey (log : List Migration) (migrationId : String) (actionIndex : Nat)
    (params : DeletePrimaryKeyParams) : Except String (List DDL) :=
  match snapshotAsOf log migrationId actionIndex with
  | .error e => .error e
  | .ok snapshot => applyDeletePrimaryKeyWith snapshot params

/-- Dispatch of one decoded action in the apply loop (the switch of
applyMigrationActions, sync.go 292-311). -/
def runAction (log : List Migration) (migrationId : String) (actionIndex : Nat) :
    ActionV → Except String (List DDL)
  | .addTable p => applyAddTable p
  | .deleteTable p => applyDeleteTable p
  | .addColumn p => applyAddColumn p
  | .deleteColumn p => applyDeleteColumn p
  | .addPrimaryKey p => applyAddPrimaryKey log migrationId actionIndex p
  | .deletePrimaryKey p => applyDeletePrimaryKey log migrationId actionIndex p

/-- The apply loop over a list of actions starting at a given index
(applyMigrationActions, sync.go 282-319): decode errors fail the run; a
decoded action executes its statements; an action whose method matched no
switch case executes nothing and the loop continues with the next action. -/
def applyActionsFrom (log : List Migration) (migrationId : String) :
    Nat → List DbAction → Except String (List DDL)
  | _, [] => .ok []
  | idx, a :: rest =>
    match decodeAction a.Method a.Params with
    | .error e => .error ("cannot decode action " ++ e)
    | .ok (_, v?) =>
      match (match v? with
             | some v => runAction log migrationId idx v
             | none => .ok []) with
      | .error e => .error ("cannot apply action " ++ e)
      | .ok ddl =>
        match applyActionsFrom log migrationId (idx + 1) rest with
        | .error e => .error e
        | .ok ddlRest => .ok (ddl ++ ddlRest)

/-- applyMigrationActions (sync.go 282-319). -/
def applyMigrationActions (log : List Migration) (m : Migration) : Except String (List DDL) :=
  applyActionsFrom log m.Id 0 m.Actions

/-- Model of getCurrentSyncedMigrationId (sync.go 269-280): SELECT id FROM
_migrations ORDER BY id DESC LIMIT 1 yields the largest stored id; ErrNoRows
is mapped to the empty string.  The bookkeeping table is modelled by the
list of its id column values. -/
def maxId (store : List String) : String :=
  store.foldr (fun a b => if strLtb a b then b else a) ""

/-- The migration loop of Sync (sync.go 240-264) over the ordered migration
list.  A migration whose id equals the marker flips the passed flag and is
skipped; while the flag is unset every migration is skipped; afterwards each
migration is applied and its bookkeeping row inserted.  The result of
addMigrationToMigrationsTable is discarded by the source (sync.go 259), so an
insert failure (modelled by the ifail oracle) loses the row but neither
aborts nor rolls back; an apply failure aborts the run. -/
def syncLoop (log : List Migration) (ifail : String → Bool) (marker : String) :
    List Migration → Bool → Except String (List DDL × List String)
  | [], _ => .ok ([], [])
  | m :: rest, passed =>
    if m.Id = marker then
      syncLoop log ifail marker rest true
    else if passed = false then
      syncLoop log ifail marker rest passed
    else
      match applyMigrationActions log m with
      | .error e => .error ("cannot apply migration " ++ m.Id ++ ": " ++ e)
      | .ok ddl =>
        match syncLoop log ifail marker rest passed with
        | .error e => .error e
        | .ok (ddlRest, inserted) =>
          .ok (ddl ++ ddlRest, (if ifail m.Id then [] else [m.Id]) ++ inserted)

/-- Sync (sync.go 192-267) on an already-loaded ordered migration list.  The
bookkeeping store is the list of ids in the _migrations table; the result is
the committed outcome: the DDL executed in the transaction and the store
contents after commit.  An error result models a run that did not commit
(every error path of the source either rolls the transaction back or returns
before commit).  The connection steps and the idempotent creation of the
bookkeeping table are no-ops in this model. -/
def Sync (log : List Migration) (store : List String) (ifail : String → Bool) :
    Except String (List DDL × List String) :=
  match GetCurrentSnapshot log with
  | .error e => .error e
  | .ok _ =>
    match syncLoop log ifail (maxId store) log (maxId store == "") with
    | .error e => .error e
    | .ok (ddl, inserted) => .ok (ddl, store ++ inserted)

/-- Sync with every bookkeeping insert succeeding (the behavior of a healthy
target store). -/
def SyncOK (log : List Migration) (store : List String) :
    Except String (List DDL × List String) :=
  Sync log store (fun _ => false)

/-- Appends an action to the last migration of the list, leaving every other
migration unchanged (the rewrite of the latest migration record performed by
addActionToMigrationFile, migration.go 203-213). -/
def appendToLast (a : DbAction) : List Migration → List Migration
  | [] => []
  | [m] => [{ m with Actions := m.Actions ++ [a] }]
  | m :: m2 :: rest => m :: appendToLast a (m2 :: rest)

/-- Id of the last migration in the list (empty when there is none). -/
def lastId : List Migration → String
  | [] => ""
  | [m] => m.Id
  | _ :: m2 :: rest => lastId (m2 :: rest)

/-- addActionToMigrationFile (migration.go 184-219): requires a non-empty
log; validates the candidate action through the hypothetical snapshot before
mutating; on success appends the marshalled action to the latest migration
and returns its id.  An error result means nothing was written. -/
def addActionToMigrationFile (log : List Migration) (v : ActionV) :
    Except String (List Migration × String) :=
  match log with
  | [] => .error "migration does not exist, please add migration"
  | m :: rest =>
    match previewWithHypothetical (m :: rest) v with
    | .error e => .error e
    | .ok _ => .ok (appendToLast (mkAction v) (m :: rest), lastId (m :: rest))

/-- Errors of the action log store, by kind (spec.md section 7 taxonomy). -/
inductive StoreError where
  | notFound (what : String)
  | parseError (detail : String)
  deriving DecidableEq

/-- File name of a migration record (migration.go 114-123). -/
def migrationFileName (id : String) : String := id ++ ".json"

/-- The migrations directory, modelled as an association list from file name
to the migration value whose json.Marshal output the file holds. -/
def Fs : Type := List (String × Migration)

/-- GetText (migration.go 125-134) at the level of file contents: every read
error is discarded by the source (line 129 returns nil on a path error and
line 133 drops the ReadFile error), so an absent file reads as empty text
and no error is ever reported.  The text of a present file is represented by
the stored migration value (its marshalled form); the Option is none exactly
when the text is empty. -/
def GetText (fs : Fs) (id : String) : Option Migration × Option StoreError :=
  ((fs.find? (fun f => f.fst == migrationFileName id)).map Prod.snd, none)

/-- Get (migration.go 136-150): parses the text returned by GetText.
json.Unmarshal is modelled by its round-trip property on marshalled records
and by its failure on empty input (unexpected end of JSON input); the parse
failure is wrapped as the parse error of the source (line 146). -/
def Get (fs : Fs) (id : String) : Except StoreError Migration :=
  match (GetText fs id).fst with
  | none => .error (.parseError "unexpected end of JSON input")
  | some m => .ok m

/-- Whether a store result is a not-found failure. -/
def errIsNotFound : Except StoreError Migration → Bool
  | .error (.notFound _) => true
  | _ => false

/-! ## Concrete logs used by counterexamples and witnesses -/

/-- A one-migration log creating table t. -/
def sampleLog1 : List Migration :=
  [{ SchemaVersion := "1", Id := "A", Description := "",
     Actions := [mkAction (.addTable { Name := "t" })] }]

/-- A log whose single migration adds table t with columns a and b and then
declares a and b as primary keys, one action at a time. -/
def pkLog : List Migration :=
  [{ SchemaVersion := "1", Id := "1", Description := "", Actions :=
    [ mkAction (.addTable { Name := "t" }),
      mkAction (.addColumn { Table := "t", Column := "a", colType := "text",
                             IsNullable := true, DefaultValue := "" }),
      mkAction (.addColumn { Table := "t", Column := "b", colType := "text",
                             IsNullable := true, DefaultValue := "" }),
      mkAction (.addPrimaryKey { Table := "t", Column := "a" }),
      mkAction (.addPrimaryKey { Table := "t", Column := "b" }) ] }]

/-- A log whose single migration adds table t with key column a and then
deletes that sole primary key. -/
def delPkLog : List Migration :=
  [{ SchemaVersion := "1", Id := "1", Description := "", Actions :=
    [ mkAction (.addTable { Name := "t" }),
      mkAction (.addColumn { Table := "t", Column := "a", colType := "text",
                             IsNullable := true, DefaultValue := "" }),
      mkAction (.addPrimaryKey { Table := "t", Column := "a" }),
      mkAction (.deletePrimaryKey { Table := "t", Column := "a" }) ] }]

/-- Strict ascending sortedness of migration ids, the shape in which Sync
receives the log from GetList (migration.go 159-161: file names sorted
ascending, ids being the file names without extension). -/
def idsChain : List Migration → Bool
  | [] => true
  | [_] => true
  | a :: b :: rest => strLtb a.Id b.Id && idsChain (b :: rest)

/-! ## Order facts for the lexicographic string comparison -/

theorem charLtb_irrefl (a : Char) : charLtb a a = false := by
  simp [charLtb]

theorem charLtb_asymm {a b : Char} (h : charLtb a b = true) : charLtb b a = false := by
  simp [charLtb] at *
  omega

theorem charLtb_trans {a b c : Char} (h1 : charLtb a b = true) (h2 : charLtb b c = true) :
    charLtb a c = true := by
  simp [charLtb] at *
  omega

theorem charLtb_conn {a b : Char} (h1 : charLtb a b = false) (h2 : charLtb b a = false) :
    a = b := by
  simp [charLtb] at h1 h2
  have hn : a.toNat = b.toNat := by omega
  exact Char.ext (UInt32.toNat.inj hn)

theorem charsLtb_nil_right (l : List Char) : charsLtb l [] = false := by
  cases l <;> rfl

theorem charsLtb_irrefl (l : List Char) : charsLtb l l = false := by
  induction l with
  | nil => rfl
  | cons x xs ih => simp [charsLtb, charLtb_irrefl, ih]

theorem charsLtb_asymm : ∀ {l1 l2 : List Char}, charsLtb l1 l2 = true → charsLtb l2 l1 = false
  | [], [], h => by simp [charsLtb] at h
  | [], _ :: _, _ => charsLtb_nil_right _
  | _ :: _, [], h => by simp [charsLtb] at h
  | x :: xs, y :: ys, h => by
    simp only [charsLtb] at h ⊢
    cases hxy : charLtb x y with
    | true => simp [hxy, charLtb_asymm hxy]
    | false =>
      cases hyx : charLtb y x with
      | true => simp [hxy, hyx] at h
      | false =>
        simp only [hxy, hyx] at h ⊢
        simp at h ⊢
        exact charsLtb_asymm h

theorem charsLtb_conn : ∀ {l1 l2 : List Char},
    charsLtb l1 l2 = false → charsLtb l2 l1 = false → l1 = l2
  | [], [], _, _ => rfl
  | [], _ :: _, h1, _ => by simp [charsLtb] at h1
  | _ :: _, [], _, h2 => by simp [charsLtb] at h2
  | x :: xs, y :: ys, h1, h2 => by
    simp only [charsLtb] at h1 h2
    cases hxy : charLtb x y with
    | true => simp [hxy] at h1
    | false =>
      cases hyx : charLtb y x with
      | true => simp [hyx] at h2
      | false =>
        simp only [hxy, hyx] at h1 h2
        simp at h1 h2
        rw [charLtb_conn hxy hyx, charsLtb_conn h1 h2]

theorem charsLtb_trans : ∀ {l1 l2 l3 : List Char},
    charsLtb l1 l2 = true → charsLtb l2 l3 = true → charsLtb l1 l3 = true
  | [], [], _, h1, _ => by simp [charsLtb] at h1
  | [], _ :: _, [], _, h2 => by simp [charsLtb] at h2
  | [], _ :: _, _ :: _, _, _ => rfl
  | _ :: _, [], _, h1, _ => by simp [charsLtb] at h1
  | _ :: _, _ :: _, [], _, h2 => by simp [charsLtb] at h2
  | x :: xs, y :: ys, z :: zs, h1, h2 => by
    simp only [charsLtb] at h1 h2 ⊢
    cases hxy : charLtb x y with
    | true =>
      cases hyz : charLtb y z with
      | true => simp [charLtb_trans hxy hyz]
      | false =>
        cases hzy : charLtb z y with
        | true => simp [hyz, hzy] at h2
        | false =>
          have hyzeq : y = z := charLtb_conn hyz hzy
          rw [← hyzeq, hxy]
          simp
    | false =>
      cases hyx : charLtb y x with
      | true => simp [hxy, hyx] at h1
      | false =>
        have hxyeq : x = y := charLtb_conn hxy hyx
        simp only [hxy, hyx] at h1
        simp at h1
        cases hyz : charLtb y z with
        | true => rw [hxyeq, hyz]; simp
        | false =>
          cases hzy : charLtb z y with
          | true => simp [hyz, hzy] at h2
          | false =>
            simp only [hyz, hzy] at h2
            simp at h2
            rw [hxyeq, hyz, hzy]
            simp
            exact charsLtb_trans h1 h2

theorem strLtb_irrefl (a : String) : strLtb a a = false := charsLtb_irrefl a.data

theorem strLtb_asymm {a b : String} (h : strLtb a b = true) : strLtb b a = false :=
  charsLtb_asymm h

theorem strLtb_trans {a b c : String} (h1 : strLtb a b = true) (h2 : strLtb b c = true) :
    strLtb a c = true := charsLtb_trans h1 h2

theorem strLtb_conn {a b : String} (h1 : strLtb a b = false) (h2 : strLtb b a = false) :
    a = b := String.ext (charsLtb_conn h1 h2)

theorem strLtb_empty_right (a : String) : strLtb a "" = false := charsLtb_nil_right a.data

theorem strLtb_le_trans {a b c : String} (h1 : strLtb b a = false) (h2 : strLtb c b = false) :
    strLtb c a = false := by
  cases hx : strLtb c a with
  | false => rfl
  | true =>
    exfalso
    cases hab : strLtb a b with
    | true =>
      have hcb := strLtb_trans hx hab
      rw [hcb] at h2
      exact Bool.noConfusion h2
    | false =>
      have hab2 : a = b := strLtb_conn hab h1
      rw [hab2] at hx
      rw [hx] at h2
      exact Bool.noConfusion h2

theorem mem_maxId_ge : ∀ (l : List String) (x : String), x ∈ l → strLtb (maxId l) x = false := by
  intro l
  induction l with
  | nil => intro x hx; simp at hx
  | cons a rest ih =>
    intro x hx
    have hstep : maxId (a :: rest) = if strLtb a (maxId rest) then maxId rest else a := rfl
    rcases List.mem_cons.mp hx with he | hm
    · subst he
      rw [hstep]
      cases hc : strLtb x (maxId rest) with
      | false => simp [hc, strLtb_irrefl]
      | true => simp [hc, strLtb_asymm hc]
    · have hr := ih x hm
      rw [hstep]
      cases hc : strLtb a (maxId rest) with
      | true => simpa [hc] using hr
      | false =>
        simp [hc]
        exact strLtb_le_trans hr hc

theorem eq_empty_of_maxId_ge {l : List String} {x : String} (hx : x ∈ l)
    (he : maxId l = "") : x = "" := by
  have h1 := mem_maxId_ge l x hx
  rw [he] at h1
  exact strLtb_conn (strLtb_empty_right x) h1

/-! ## Generic loop lemmas -/

/-- While the passed flag is unset, a loop whose marker matches no migration
id skips everything: no DDL, no bookkeeping rows. -/
theorem syncLoop_skip_all (log : List Migration) (ifail : String → Bool) (marker : String) :
    ∀ migs : List Migration, marker ∉ migs.map Migration.Id →
      syncLoop log ifail marker migs false = .ok ([], []) := by
  intro migs
  induction migs with
  | nil => intro _; rfl
  | cons m rest ih =>
    intro h
    have hne : m.Id ≠ marker := by
      intro e
      exact h (by simp [List.mem_cons, e])
    have hrest : marker ∉ rest.map Migration.Id := by
      intro e
      exact h (by simp [List.mem_cons]; right; simpa using e)
    unfold syncLoop
    rw [if_neg hne, if_pos rfl]
    exact ih hrest

/-! ## Claim C1 -/

/-- Claim C1 counterexample: with log [A] (creating table t) and a persisted
marker B that matches no logged migration id, Sync commits with no DDL and no
new bookkeeping row; it does not reapply the migration as the claim states
(which would give the createTable statement and a row for A). -/
theorem sync_staleMarker_refute :
    SyncOK sampleLog1 ["B"] = .ok ([], ["B"]) ∧
    SyncOK sampleLog1 ["B"] ≠ .ok ([DDL.createTable "t"], ["B", "A"]) := by
  constructor
  · rfl
  · decide

/-- Claim C1 (amended): when the persisted marker is non-empty and does not
equal any logged migration id, Sync treats every migration as already
applied: the loop skips all of them and the run commits with no DDL and an
unchanged bookkeeping store. -/
theorem sync_staleMarker_skips_all (log : List Migration) (store : List String) (s : Snapshot)
    (h1 : maxId store ≠ "") (h2 : maxId store ∉ log.map Migration.Id)
    (h3 : GetCurrentSnapshot log = .ok s) :
    SyncOK log store = .ok ([], store) := by
  unfold SyncOK Sync
  have hb : (maxId store == "") = false := by
    simp [h1]
  rw [h3, hb, syncLoop_skip_all log _ (maxId store) log h2]
  simp

/-- Claim C1 (amended) witness at the counterexample input. -/
theorem sync_staleMarker_skips_all_witness :
    SyncOK sampleLog1 ["B"] = .ok ([], ["B"]) :=
  sync_staleMarker_skips_all sampleLog1 ["B"]
    [{ name := "t", columns := [], primaryKeys := [] }]
    (by decide) (by decide) (by decide)

/-! ## Claim C2 -/

/-- Claim C2: refuted by the source slip at sync.go 259: the error returned
by addMigrationToMigrationsTable is discarded, so a run in which every
bookkeeping insert fails still applies the DDL and still commits (result is
ok, with the created table and no bookkeeping row), where the claim requires
the whole transaction to be rolled back. -/
theorem sync_insert_error_ignored :
    Sync sampleLog1 [] (fun _ => true) = .ok ([DDL.createTable "t"], []) := by
  rfl

/-! ## Claim C7 -/

/-- Claim C7: refuted by migration.go 129 and 133: GetText discards every
read error, so Get on an id with no migration file parses empty text and
fails with a parse error (unexpected end of JSON input), not with a
not-found error. -/
theorem get_absent_parse_error :
    Get [(migrationFileName "A",
          { SchemaVersion := "1", Id := "A", Description := "", Actions := [] })] "B"
      = .error (.parseError "unexpected end of JSON input")
    ∧ errIsNotFound
        (Get [(migrationFileName "A",
               { SchemaVersion := "1", Id := "A", Description := "", Actions := [] })] "B")
      = false := by
  constructor
  · rfl
  · rfl

/-! ## Claim C8 -/

/-- Claim C8: for every AddColumn action with non-blank table and column
names, the emitted statement carries the declared column type, its not-null
parameter is the string NOT NULL exactly when IsNullable is false (and empty
otherwise), and its default parameter is non-empty exactly when the declared
default value is a non-empty string. -/
theorem applyAddColumn_clauses (p : AddColumnParams)
    (ht : trimSpace p.Table ≠ "") (hc : trimSpace p.Column ≠ "") :
    ∃ notNullParam defaultValueParam,
      applyAddColumn p =
        .ok [DDL.alterAddColumn p.Table p.Column p.colType notNullParam defaultValueParam]
      ∧ (notNullParam = "NOT NULL" ↔ p.IsNullable = false)
      ∧ (notNullParam = "" ↔ p.IsNullable = true)
      ∧ (defaultValueParam ≠ "" ↔ p.DefaultValue ≠ "") := by
  refine ⟨if !p.IsNullable then "NOT NULL" else "",
          if p.DefaultValue ≠ "" then "DEFAULT " ++ p.DefaultValue ++ ";" else "", ?_, ?_, ?_, ?_⟩
  · unfold applyAddColumn
    rw [if_neg ht, if_neg hc]
  · cases p.IsNullable <;> simp
  · cases p.IsNullable <;> simp
  · by_cases hd : p.DefaultValue = ""
    · simp [hd]
    · have hne : "DEFAULT " ++ p.DefaultValue ++ ";" ≠ "" := by
        intro he
        have hdata := congrArg String.data he
        simp [String.data_append] at hdata
      simp [hd, hne]

/-- Claim C8 witness: a non-nullable column with a non-empty default. -/
theorem applyAddColumn_clauses_witness :
    ∃ notNullParam defaultValueParam,
      applyAddColumn { Table := "t", Column := "c", colType := "text",
                       IsNullable := false, DefaultValue := "x" } =
        .ok [DDL.alterAddColumn "t" "c" "text" notNullParam defaultValueParam]
      ∧ (notNullParam = "NOT NULL" ↔ false = false)
      ∧ (notNullParam = "" ↔ false = true)
      ∧ (defaultValueParam ≠ "" ↔ "x" ≠ "") :=
  applyAddColumn_clauses
    { Table := "t", Column := "c", colType := "text", IsNullable := false, DefaultValue := "x" }
    (by decide) (by decide)

/-! ## Claim C10 -/

/-- Claim C10: an action whose method is not one of the six recognized kinds
decodes without error to the empty method with no decoded value, and the
apply loop executes no DDL for it and continues with the rest of the actions
at their original positions. -/
theorem unknown_action_skipped (m : String) (j : Json) (log : List Migration)
    (mid : String) (idx : Nat) (rest : List DbAction)
    (h : m ∉ (["addTable", "deleteTable", "addColumn", "deleteColumn",
               "addPrimaryKey", "deletePrimaryKey"] : List String)) :
    decodeAction m j = .ok ("", none) ∧
    applyActionsFrom log mid idx ({ Method := m, Params := j } :: rest) =
      applyActionsFrom log mid (idx + 1) rest := by
  simp only [List.mem_cons, List.not_mem_nil, or_false, not_or] at h
  obtain ⟨h1, h2, h3, h4, h5, h6⟩ := h
  have hdec : decodeAction m j = .ok ("", none) := by
    unfold decodeAction
    rw [if_neg h1, if_neg h2, if_neg h3, if_neg h4, if_neg h5, if_neg h6]
  refine ⟨hdec, ?_⟩
  conv_lhs => unfold applyActionsFrom
  simp only [hdec]
  cases hr : applyActionsFrom log mid (idx + 1) rest with
  | error e => simp [hr]
  | ok ddlRest => simp [hr]

/-- Claim C10 witness: a renameColumn action with malformed parameters is
skipped by the apply loop of a concrete migration. -/
theorem unknown_action_skipped_witness :
    decodeAction "renameColumn" Json.jmalformed = .ok ("", none) ∧
    applyActionsFrom sampleLog1 "A" 0
        ({ Method := "renameColumn", Params := Json.jmalformed } :: []) =
      applyActionsFrom sampleLog1 "A" 1 [] :=
  unknown_action_skipped "renameColumn" Json.jmalformed sampleLog1 "A" 0 [] (by decide)

/-! ## Claim C3 -/

/-- Claim C3 counterexample: in a log where table t has key column a and the
action at index 4 adds key column b, the pre-action snapshot lists exactly
one key column, so the engine emits no DROP CONSTRAINT and recreates the
constraint over the pre-action keys only; the claim predicts a drop (the
table has a constraint) followed by a constraint over a and b. -/
theorem addPrimaryKey_refute :
    applyAddPrimaryKey pkLog "1" 4 { Table := "t", Column := "b" } =
      .ok [DDL.addConstraintPkey "t" ["a"]]
    ∧ applyAddPrimaryKey pkLog "1" 4 { Table := "t", Column := "b" } ≠
      .ok [DDL.dropConstraintPkey "t", DDL.addConstraintPkey "t" ["a", "b"]] := by
  constructor
  · rfl
  · decide

/-- Claim C3 (amended): given the pre-action snapshot of the log position,
when it contains the table and the column, AddPrimaryKey drops the existing
constraint only when the snapshot lists more than one key column, and
recreates the constraint over exactly the key columns of that snapshot in
order - the new column is not part of the recreated constraint. -/
theorem addPrimaryKey_pre_keys_only (log : List Migration) (mid : String) (idx : Nat)
    (params : AddPrimaryKeyParams) (snapshot : Snapshot) (table : TableDef)
    (hs : snapshotAsOf log mid idx = .ok snapshot)
    (ht : getTableFromSnapshot snapshot params.Table = some table)
    (hc : (getColumnFromTable table params.Column).isSome) :
    applyAddPrimaryKey log mid idx params =
      .ok ((if table.primaryKeys.length > 1 then [DDL.dropConstraintPkey params.Table] else [])
        ++ [DDL.addConstraintPkey params.Table table.primaryKeys]) := by
  obtain ⟨col, hcol⟩ := Option.isSome_iff_exists.mp hc
  unfold applyAddPrimaryKey
  simp only [hs]
  unfold applyAddPrimaryKeyWith
  simp only [ht, hcol]

/-- Claim C3 (amended) witness at the counterexample position. -/
theorem addPrimaryKey_pre_keys_only_witness :
    applyAddPrimaryKey pkLog "1" 4 { Table := "t", Column := "b" } =
      .ok [DDL.addConstraintPkey "t" ["a"]] :=
  (addPrimaryKey_pre_keys_only pkLog "1" 4 { Table := "t", Column := "b" }
    [{ name := "t",
       columns := [{ name := "a", colType := "text", isNullable := true, defaultValue := "" },
                   { name := "b", colType := "text", isNullable := true, defaultValue := "" }],
       primaryKeys := ["a"] }]
    { name := "t",
      columns := [{ name := "a", colType := "text", isNullable := true, defaultValue := "" },
                  { name := "b", colType := "text", isNullable := true, defaultValue := "" }],
      primaryKeys := ["a"] }
    (by rfl) (by rfl) (by rfl)).trans (by rfl)

/-! ## Claim C4 -/

/-- Claim C4 counterexample: deleting the sole key column a of table t
leaves zero key columns, yet the engine still executes the unconditional
ADD CONSTRAINT statement - here with an empty column list - where the claim
predicts no ADD CONSTRAINT at all. -/
theorem deletePrimaryKey_refute :
    applyDeletePrimaryKey delPkLog "1" 3 { Table := "t", Column := "a" } =
      .ok [DDL.dropConstraintPkey "t", DDL.addConstraintPkey "t" []]
    ∧ applyDeletePrimaryKey delPkLog "1" 3 { Table := "t", Column := "a" } ≠
      .ok [DDL.dropConstraintPkey "t"] := by
  constructor
  · rfl
  · decide

/-- Claim C4 (amended): given the pre-action snapshot of the log position,
when it contains the table, DeletePrimaryKey drops the constraint and then
unconditionally recreates it over the remaining key columns in order
(excluding the target column); when zero columns remain the ADD CONSTRAINT
statement is still executed, with an empty column list. -/
theorem deletePrimaryKey_always_recreates (log : List Migration) (mid : String) (idx : Nat)
    (params : DeletePrimaryKeyParams) (snapshot : Snapshot) (table : TableDef)
    (hs : snapshotAsOf log mid idx = .ok snapshot)
    (ht : getTableFromSnapshot snapshot params.Table = some table) :
    applyDeletePrimaryKey log mid idx params =
      .ok [DDL.dropConstraintPkey params.Table,
           DDL.addConstraintPkey params.Table
             (table.primaryKeys.filter (fun k => k != params.Column))] := by
  unfold applyDeletePrimaryKey
  simp only [hs]
  unfold applyDeletePrimaryKeyWith
  simp only [ht]

/-- Claim C4 (amended) witness at the counterexample position. -/
theorem deletePrimaryKey_always_recreates_witness :
    applyDeletePrimaryKey delPkLog "1" 3 { Table := "t", Column := "a" } =
      .ok [DDL.dropConstraintPkey "t", DDL.addConstraintPkey "t" []] :=
  (deletePrimaryKey_always_recreates delPkLog "1" 3 { Table := "t", Column := "a" }
    [{ name := "t",
       columns := [{ name := "a", colType := "text", isNullable := true, defaultValue := "" }],
       primaryKeys := ["a"] }]
    { name := "t",
      columns := [{ name := "a", colType := "text", isNullable := true, defaultValue := "" }],
      primaryKeys := ["a"] }
    (by rfl) (by rfl)).trans (by rfl)

/-! ## Claim C9 -/

/-- The updated table keeps its name. -/
theorem deleteColumnUpd_name (tb : TableDef) (c : String) :
    (deleteColumnUpd tb c).name = tb.name := rfl

/-- Updating the found table rewrites exactly its entry in the snapshot. -/
theorem getTable_updateTable (t : String) (f : TableDef → TableDef)
    (hf : ∀ x, (f x).name = x.name) :
    ∀ (s : Snapshot) (tb : TableDef), getTableFromSnapshot s t = some tb →
      getTableFromSnapshot (updateTable s t f) t = some (f tb) := by
  intro s
  induction s with
  | nil => intro tb h; simp [getTableFromSnapshot] at h
  | cons x rest ih =>
    intro tb h
    cases hx : (x.name == t) with
    | true =>
      have hxt : x.name = t := by simpa using hx
      have hfind : getTableFromSnapshot (x :: rest) t = some x := by
        simp [getTableFromSnapshot, List.find?, hx]
      rw [hfind] at h
      obtain rfl : x = tb := by simpa using h
      simp [updateTable, getTableFromSnapshot, List.find?, hx, hf, hxt]
    | false =>
      have hskip : getTableFromSnapshot (x :: rest) t = getTableFromSnapshot rest t := by
        simp [getTableFromSnapshot, List.find?, hx]
      rw [hskip] at h
      have hrec := ih tb h
      simp [updateTable, getTableFromSnapshot, List.find?, hx] at hrec ⊢
      exact hrec

/-- After the DeleteColumn update the column is gone from the table. -/
theorem getColumn_deleteColumnUpd (tb : TableDef) (c : String) :
    getColumnFromTable (deleteColumnUpd tb c) c = none := by
  unfold getColumnFromTable deleteColumnUpd
  rw [List.find?_eq_none]
  intro col hcol
  have hmem := List.mem_filter.mp hcol
  have hne : col.name ≠ c := by simpa using hmem.2
  simpa using hne

/-- Claim C9: the DeleteColumn rule of the snapshot fold: a missing table or
column yields NotFoundError; otherwise the column is removed from the table
and from the ordered primary-key list (all other key entries survive, none
are added), with every other table untouched. -/
theorem snapshot_deleteColumn_spec (snap : Snapshot) (t c : String) :
    (getTableFromSnapshot snap t = none →
      applySnapshotAction snap (.deleteColumn { Table := t, Column := c }) =
        .error (.notFound ("table " ++ t)))
    ∧ (∀ tb, getTableFromSnapshot snap t = some tb → getColumnFromTable tb c = none →
      applySnapshotAction snap (.deleteColumn { Table := t, Column := c }) =
        .error (.notFound ("column " ++ c)))
    ∧ (∀ tb, getTableFromSnapshot snap t = some tb →
        ∀ col, getColumnFromTable tb c = some col →
      applySnapshotAction snap (.deleteColumn { Table := t, Column := c }) =
        .ok (updateTable snap t (fun x => deleteColumnUpd x c))
      ∧ getTableFromSnapshot (updateTable snap t (fun x => deleteColumnUpd x c)) t =
          some (deleteColumnUpd tb c)
      ∧ getColumnFromTable (deleteColumnUpd tb c) c = none
      ∧ c ∉ (deleteColumnUpd tb c).primaryKeys
      ∧ (∀ k ∈ tb.primaryKeys, k ≠ c → k ∈ (deleteColumnUpd tb c).primaryKeys)
      ∧ (∀ k ∈ (deleteColumnUpd tb c).primaryKeys, k ∈ tb.primaryKeys)) := by
  refine ⟨?_, ?_, ?_⟩
  · intro hnone
    simp only [applySnapshotAction, hnone]
  · intro tb htb hcol
    simp only [applySnapshotAction, htb, hcol]
  · intro tb htb col hcol
    refine ⟨?_, ?_, getColumn_deleteColumnUpd tb c, ?_, ?_, ?_⟩
    · simp only [applySnapshotAction, htb, hcol]
    · exact getTable_updateTable t (fun x => deleteColumnUpd x c)
        (fun x => deleteColumnUpd_name x c) snap tb htb
    · simp [deleteColumnUpd, List.mem_filter]
    · intro k hk hkc
      simp [deleteColumnUpd, List.mem_filter, hk, hkc]
    · intro k hk
      exact (List.mem_filter.mp hk).1

/-- Claim C9 witness: deleting key column a from a one-table snapshot. -/
theorem snapshot_deleteColumn_spec_witness :
    applySnapshotAction
        [{ name := "t",
           columns := [{ name := "a", colType := "text", isNullable := true, defaultValue := "" }],
           primaryKeys := ["a"] }]
        (.deleteColumn { Table := "t", Column := "a" }) =
      .ok [{ name := "t", columns := [], primaryKeys := [] }] :=
  (((snapshot_deleteColumn_spec
      [{ name := "t",
         columns := [{ name := "a", colType := "text", isNullable := true, defaultValue := "" }],
         primaryKeys := ["a"] }] "t" "a").2.2
    { name := "t",
      columns := [{ name := "a", colType := "text", isNullable := true, defaultValue := "" }],
      primaryKeys := ["a"] }
    (by rfl)
    { name := "a", colType := "text", isNullable := true, defaultValue := "" }
    (by rfl)).1).trans (by rfl)

/-! ## Claim C5 -/

/-- appendToLast rewrites only the last migration: it equals the original
list with its last element replaced by that element with the action
appended. -/
theorem appendToLast_eq (a : DbAction) :
    ∀ (log : List Migration) (m : Migration), log.getLast? = some m →
      appendToLast a log = log.dropLast ++ [{ m with Actions := m.Actions ++ [a] }] := by
  intro log
  induction log with
  | nil => intro m h; simp at h
  | cons x rest ih =>
    intro m h
    cases rest with
    | nil =>
      obtain rfl : x = m := by simpa using h
      simp [appendToLast]
    | cons y ys =>
      rw [List.getLast?_cons_cons] at h
      have hrec := ih m h
      show x :: appendToLast a (y :: ys) = _
      rw [hrec]
      simp

/-- lastId returns the id of the last migration. -/
theorem lastId_eq : ∀ (log : List Migration) (m : Migration), log.getLast? = some m →
    lastId log = m.Id := by
  intro log
  induction log with
  | nil => intro m h; simp at h
  | cons x rest ih =>
    intro m h
    cases rest with
    | nil =>
      obtain rfl : x = m := by simpa using h
      rfl
    | cons y ys =>
      rw [List.getLast?_cons_cons] at h
      exact ih m h

/-- Claim C5: AppendAction semantics of addActionToMigrationFile: an empty
log fails with the precondition error and writes nothing; when the
hypothetical-snapshot validation over the full log plus the candidate fails,
that error is returned and nothing is written; on success exactly the last
migration is rewritten, with the marshalled action appended to its action
list, and its id is returned. -/
theorem addActionToMigrationFile_spec (log : List Migration) (v : ActionV) :
    (log = [] →
      addActionToMigrationFile log v = .error "migration does not exist, please add migration")
    ∧ (∀ e, log ≠ [] → previewWithHypothetical log v = .error e →
      addActionToMigrationFile log v = .error e)
    ∧ (∀ s m, previewWithHypothetical log v = .ok s → log.getLast? = some m →
      addActionToMigrationFile log v =
        .ok (log.dropLast ++ [{ m with Actions := m.Actions ++ [mkAction v] }], m.Id)) := by
  refine ⟨?_, ?_, ?_⟩
  · intro h
    subst h
    rfl
  · intro e hne hprev
    cases log with
    | nil => exact absurd rfl hne
    | cons x rest =>
      simp only [addActionToMigrationFile, hprev]
  · intro s m hprev hlast
    cases log with
    | nil => simp at hlast
    | cons x rest =>
      simp only [addActionToMigrationFile, hprev]
      rw [appendToLast_eq (mkAction v) (x :: rest) m hlast,
          lastId_eq (x :: rest) m hlast]

/-- Claim C5 witness: appending an addTable action to a one-migration log. -/
theorem addActionToMigrationFile_spec_witness :
    addActionToMigrationFile sampleLog1 (.addTable { Name := "u" }) =
      .ok ([{ SchemaVersion := "1", Id := "A", Description := "",
              Actions := [mkAction (.addTable { Name := "t" }),
                          mkAction (.addTable { Name := "u" })] }], "A") :=
  ((addActionToMigrationFile_spec sampleLog1 (.addTable { Name := "u" })).2.2
    [{ name := "t", columns := [], primaryKeys := [] },
     { name := "u", columns := [], primaryKeys := [] }]
    { SchemaVersion := "1", Id := "A", Description := "",
      Actions := [mkAction (.addTable { Name := "t" })] }
    (by rfl) (by rfl)).trans (by rfl)

/-! ## Claim C6: helper lemmas -/

theorem exists_getLast : ∀ (l : List Migration), l ≠ [] → ∃ m, l.getLast? = some m := by
  intro l
  induction l with
  | nil => intro h; exact absurd rfl h
  | cons a rest ih =>
    intro _
    cases hr : rest with
    | nil => exact ⟨a, rfl⟩
    | cons b bs =>
      obtain ⟨m, hm⟩ := ih (by simp [hr])
      rw [hr] at hm
      exact ⟨m, by rw [List.getLast?_cons_cons]; exact hm⟩

theorem getLastMem : ∀ (l : List Migration) (m : Migration), l.getLast? = some m → m ∈ l := by
  intro l
  induction l with
  | nil => intro m h; simp at h
  | cons a rest ih =>
    intro m h
    cases rest with
    | nil =>
      obtain rfl : a = m := by simpa using h
      simp
    | cons b bs =>
      rw [List.getLast?_cons_cons] at h
      exact List.mem_cons_of_mem a (ih m h)

theorem getLast?_cons_ne (a : Migration) (l : List Migration) (h : l ≠ []) :
    (a :: l).getLast? = l.getLast? := by
  cases l with
  | nil => exact absurd rfl h
  | cons b bs => exact List.getLast?_cons_cons

theorem getLast?_append_ne : ∀ (l1 l2 : List Migration), l2 ≠ [] →
    (l1 ++ l2).getLast? = l2.getLast? := by
  intro l1
  induction l1 with
  | nil => intro l2 _; rfl
  | cons a l1 ih =>
    intro l2 h
    show (a :: (l1 ++ l2)).getLast? = l2.getLast?
    rw [getLast?_cons_ne a (l1 ++ l2) (by simp [h]), ih l2 h]

theorem idsChain_tail (a : Migration) (l : List Migration) (h : idsChain (a :: l) = true) :
    idsChain l = true := by
  cases l with
  | nil => rfl
  | cons b bs =>
    have hh : (strLtb a.Id b.Id && idsChain (b :: bs)) = true := h
    exact (Bool.and_eq_true _ _ |>.mp hh).2

theorem idsChain_head_lt : ∀ (l : List Migration) (a : Migration),
    idsChain (a :: l) = true → ∀ x ∈ l, strLtb a.Id x.Id = true := by
  intro l
  induction l with
  | nil => intro a _ x hx; simp at hx
  | cons b bs ih =>
    intro a h x hx
    have hh : (strLtb a.Id b.Id && idsChain (b :: bs)) = true := h
    obtain ⟨hab, hchb⟩ := Bool.and_eq_true _ _ |>.mp hh
    rcases List.mem_cons.mp hx with he | hm
    · subst he; exact hab
    · exact strLtb_trans hab (ih b hchb x hm)

theorem idsChain_le_last : ∀ (l : List Migration), idsChain l = true →
    ∀ ml, l.getLast? = some ml → ∀ x ∈ l, strLtb ml.Id x.Id = false := by
  intro l
  induction l with
  | nil => intro _ ml h; simp at h
  | cons a rest ih =>
    intro hch ml hl x hx
    cases rest with
    | nil =>
      obtain rfl : a = ml := by simpa using hl
      obtain rfl : x = a := by simpa using hx
      exact strLtb_irrefl x.Id
    | cons b bs =>
      rw [List.getLast?_cons_cons] at hl
      have hchb := idsChain_tail a (b :: bs) hch
      rcases List.mem_cons.mp hx with he | hm
      · subst he
        have hml : ml ∈ b :: bs := getLastMem (b :: bs) ml hl
        exact strLtb_asymm (idsChain_head_lt (b :: bs) x hch ml hml)
      · exact ih hchb ml hl x hm

theorem idsChain_dropLast_lt : ∀ (l : List Migration), idsChain l = true →
    ∀ ml, l.getLast? = some ml → ∀ x ∈ l.dropLast, strLtb x.Id ml.Id = true := by
  intro l
  induction l with
  | nil => intro _ ml h; simp at h
  | cons a rest ih =>
    intro hch ml hl x hx
    cases rest with
    | nil => simp at hx
    | cons b bs =>
      rw [List.getLast?_cons_cons] at hl
      have hdx : x ∈ a :: (b :: bs).dropLast := by
        simpa [List.dropLast] using hx
      have hchb := idsChain_tail a (b :: bs) hch
      rcases List.mem_cons.mp hdx with he | hm
      · subst he
        have hml : ml ∈ b :: bs := getLastMem (b :: bs) ml hl
        exact idsChain_head_lt (b :: bs) x hch ml hml
      · exact ih hchb ml hl x hm

theorem idsChain_suffix : ∀ (l1 l2 : List Migration), idsChain (l1 ++ l2) = true →
    idsChain l2 = true := by
  intro l1
  induction l1 with
  | nil => intro l2 h; exact h
  | cons a l1 ih =>
    intro l2 h
    exact ih l2 (idsChain_tail a (l1 ++ l2) h)

/-- A loop run that inserted no bookkeeping row executed no DDL. -/
theorem syncLoop_ins_nil_ddl (log : List Migration) (marker : String) :
    ∀ (migs : List Migration) (passed : Bool) (ddl : List DDL),
      syncLoop log (fun _ => false) marker migs passed = .ok (ddl, []) → ddl = [] := by
  intro migs
  induction migs with
  | nil =>
    intro passed ddl h
    unfold syncLoop at h
    simp at h
    exact h
  | cons m rest ih =>
    intro passed ddl h
    unfold syncLoop at h
    by_cases hm : m.Id = marker
    · rw [if_pos hm] at h
      exact ih true ddl h
    · rw [if_neg hm] at h
      by_cases hp : passed = false
      · rw [if_pos hp] at h
        exact ih passed ddl h
      · rw [if_neg hp] at h
        cases ha : applyMigrationActions log m with
        | error e => simp [ha] at h
        | ok ddlA =>
          cases hr : syncLoop log (fun _ => false) marker rest passed with
          | error e => simp [ha, hr] at h
          | ok pr =>
            obtain ⟨ddlR, insR⟩ := pr
            simp only [ha, hr] at h
            simp at h

/-- A loop that runs with the passed flag set and a marker matching no id
applies every migration and records exactly their ids, in order. -/
theorem syncLoop_true_notmem (log : List Migration) (marker : String) :
    ∀ (migs : List Migration) (ddl : List DDL) (ins : List String),
      marker ∉ migs.map Migration.Id →
      syncLoop log (fun _ => false) marker migs true = .ok (ddl, ins) →
      ins = migs.map Migration.Id := by
  intro migs
  induction migs with
  | nil =>
    intro ddl ins _ h
    unfold syncLoop at h
    simp at h
    simp [h.2.symm]
  | cons m rest ih =>
    intro ddl ins hnm h
    have hne : m.Id ≠ marker := by
      intro e
      exact hnm (by simp [List.mem_cons, e])
    have hnm2 : marker ∉ rest.map Migration.Id := by
      intro e
      exact hnm (by simp [List.mem_cons]; right; simpa using e)
    unfold syncLoop at h
    rw [if_neg hne, if_neg (by simp : ¬ (true = false))] at h
    cases ha : applyMigrationActions log m with
    | error e => simp [ha] at h
    | ok ddlA =>
      cases hr : syncLoop log (fun _ => false) marker rest true with
      | error e => simp [ha, hr] at h
      | ok pr =>
        obtain ⟨ddlR, insR⟩ := pr
        simp only [ha, hr] at h
        simp at h
        rw [← h.2]
        simp [ih ddlR insR hnm2 hr]

/-- A loop starting with the passed flag unset either skips everything
(marker not among the ids) or reduces to the loop over the suffix after the
first migration whose id equals the marker. -/
theorem syncLoop_false_split (log : List Migration) (marker : String) :
    ∀ (migs : List Migration) (ddl : List DDL) (ins : List String),
      syncLoop log (fun _ => false) marker migs false = .ok (ddl, ins) →
      (marker ∉ migs.map Migration.Id ∧ ddl = [] ∧ ins = []) ∨
      (∃ pre ml post, migs = pre ++ ml :: post ∧ ml.Id = marker ∧
        syncLoop log (fun _ => false) marker post true = .ok (ddl, ins)) := by
  intro migs
  induction migs with
  | nil =>
    intro ddl ins h
    unfold syncLoop at h
    simp at h
    left
    exact ⟨by simp, h.1, h.2⟩
  | cons m rest ih =>
    intro ddl ins h
    unfold syncLoop at h
    by_cases hm : m.Id = marker
    · right
      rw [if_pos hm] at h
      exact ⟨[], m, rest, by simp, hm, h⟩
    · rw [if_neg hm, if_pos rfl] at h
      rcases ih ddl ins h with ⟨hnm, hd, hi⟩ | ⟨pre, ml, post, hsp, hid, hlp⟩
      · left
        refine ⟨?_, hd, hi⟩
        intro hc
        rw [List.map_cons] at hc
        rcases List.mem_cons.mp hc with he | hmm2
        · exact hm he.symm
        · exact hnm hmm2
      · right
        exact ⟨m :: pre, ml, post, by simp [hsp], hid, hlp⟩

/-- A loop whose marker is exactly the id of the last migration (and of no
earlier one) skips everything. -/
theorem syncLoop_marker_last (log : List Migration) (ifail : String → Bool) (marker : String) :
    ∀ (migs : List Migration) (ml : Migration), migs.getLast? = some ml → ml.Id = marker →
      (∀ x ∈ migs.dropLast, x.Id ≠ marker) →
      syncLoop log ifail marker migs false = .ok ([], []) := by
  intro migs
  induction migs with
  | nil => intro ml h; simp at h
  | cons m rest ih =>
    intro ml hl hid hdrop
    cases rest with
    | nil =>
      obtain rfl : m = ml := by simpa using hl
      unfold syncLoop
      rw [if_pos hid]
      rfl
    | cons b bs =>
      rw [List.getLast?_cons_cons] at hl
      have hm : m.Id ≠ marker := hdrop m (by simp [List.dropLast])
      unfold syncLoop
      rw [if_neg hm, if_pos rfl]
      exact ih ml hl hid (fun x hx => hdrop x (by simp [List.dropLast]; right; simpa using hx))

/-- In a successful run over a strictly sorted log, if any bookkeeping row
was recorded then the id of the last log migration is among the recorded
ids. -/
theorem sync_run_last_inserted (log : List Migration) (marker : String)
    (hch : idsChain log = true) :
    ∀ (ddl : List DDL) (ins : List String),
      syncLoop log (fun _ => false) marker log (marker == "") = .ok (ddl, ins) →
      ins ≠ [] →
      ∃ ml, log.getLast? = some ml ∧ ml.Id ∈ ins := by
  intro ddl ins hloop hins
  by_cases hb : marker = ""
  · have hbt : (marker == "") = true := by simp [hb]
    rw [hbt] at hloop
    by_cases hmm : marker ∈ log.map Migration.Id
    · cases hlg : log with
      | nil => rw [hlg] at hmm; simp at hmm
      | cons a rest =>
        subst hlg
        by_cases ha : a.Id = marker
        · have hstep : syncLoop (a :: rest) (fun _ => false) marker (a :: rest) true =
              syncLoop (a :: rest) (fun _ => false) marker rest true := by
            conv_lhs => unfold syncLoop
            rw [if_pos ha]
          rw [hstep] at hloop
          have hnm : marker ∉ rest.map Migration.Id := by
            intro hc
            obtain ⟨x, hx1, hx2⟩ := List.mem_map.mp hc
            have hlt := idsChain_head_lt rest a hch x hx1
            rw [ha, hx2, hb, strLtb_irrefl] at hlt
            exact Bool.noConfusion hlt
          have hins2 := syncLoop_true_notmem (a :: rest) marker rest ddl ins hnm hloop
          have hrne : rest ≠ [] := by
            intro he
            rw [he] at hins2
            simp at hins2
            exact hins hins2
          obtain ⟨ml, hml⟩ := exists_getLast rest hrne
          refine ⟨ml, ?_, ?_⟩
          · rw [getLast?_cons_ne a rest hrne]
            exact hml
          · rw [hins2]
            exact List.mem_map_of_mem Migration.Id (getLastMem rest ml hml)
        · exfalso
          rcases List.mem_map.mp hmm with ⟨x, hx1, hx2⟩
          rcases List.mem_cons.mp hx1 with he | hmem
          · exact ha (he ▸ hx2)
          · have hlt := idsChain_head_lt rest a hch x hmem
            rw [hx2, hb] at hlt
            rw [strLtb_empty_right] at hlt
            exact Bool.noConfusion hlt
    · have hins2 := syncLoop_true_notmem log marker log ddl ins hmm hloop
      have hlne : log ≠ [] := by
        intro he
        rw [he] at hins2
        simp at hins2
        exact hins hins2
      obtain ⟨ml, hml⟩ := exists_getLast log hlne
      exact ⟨ml, hml, by
        rw [hins2]
        exact List.mem_map_of_mem Migration.Id (getLastMem log ml hml)⟩
  · have hbf : (marker == "") = false := by simp [hb]
    rw [hbf] at hloop
    rcases syncLoop_false_split log marker log ddl ins hloop with
      ⟨_, _, hi⟩ | ⟨pre, ml0, post, hsp, hid, hlp⟩
    · exact absurd hi hins
    · have hchp : idsChain (ml0 :: post) = true := by
        apply idsChain_suffix pre (ml0 :: post)
        rw [← hsp]
        exact hch
      have hnm : marker ∉ post.map Migration.Id := by
        intro hc
        obtain ⟨x, hx1, hx2⟩ := List.mem_map.mp hc
        have hlt := idsChain_head_lt post ml0 hchp x hx1
        rw [hid, hx2, strLtb_irrefl] at hlt
        exact Bool.noConfusion hlt
      have hins2 := syncLoop_true_notmem log marker post ddl ins hnm hlp
      have hpne : post ≠ [] := by
        intro he
        rw [he] at hins2
        simp at hins2
        exact hins hins2
      obtain ⟨ml, hml⟩ := exists_getLast post hpne
      refine ⟨ml, ?_, ?_⟩
      · rw [hsp, getLast?_append_ne pre (ml0 :: post) (by simp),
            getLast?_cons_ne ml0 post hpne]
        exact hml
      · rw [hins2]
        exact List.mem_map_of_mem Migration.Id (getLastMem post ml hml)

/-- Claim C6: Sync is idempotent: after any successful run, running Sync
again on the same (strictly id-sorted, as produced by GetList) log against
the resulting bookkeeping store executes zero DDL statements and inserts no
row: the committed result is unchanged. -/
theorem sync_idempotent (log : List Migration) (store st2 : List String) (ddl : List DDL)
    (hch : idsChain log = true)
    (h : SyncOK log store = .ok (ddl, st2)) :
    SyncOK log st2 = .ok ([], st2) := by
  unfold SyncOK Sync at h ⊢
  cases hcs : GetCurrentSnapshot log with
  | error e => rw [hcs] at h; exact absurd h (by simp)
  | ok s =>
    simp only [hcs] at h ⊢
    cases hloop : syncLoop log (fun _ => false) (maxId store) log (maxId store == "") with
    | error e => rw [hloop] at h; exact absurd h (by simp)
    | ok pr =>
      obtain ⟨ddl1, ins⟩ := pr
      rw [hloop] at h
      simp at h
      obtain ⟨hddl, hst2⟩ := h
      suffices hzero :
          syncLoop log (fun _ => false) (maxId st2) log ((maxId st2) == "") = .ok ([], []) by
        rw [hzero]
        simp
      rw [← hst2]
      by_cases hins : ins = []
      · subst hins
        rw [List.append_nil]
        have hdnil : ddl1 = [] :=
          syncLoop_ins_nil_ddl log (maxId store) log (maxId store == "") ddl1 hloop
        rw [hloop, hdnil]
      · obtain ⟨ml, hml1, hml2⟩ :=
          sync_run_last_inserted log (maxId store) hch ddl1 ins hloop hins
        have hmem2 : ml.Id ∈ store ++ ins := List.mem_append.mpr (Or.inr hml2)
        have hge : strLtb (maxId (store ++ ins)) ml.Id = false :=
          mem_maxId_ge (store ++ ins) ml.Id hmem2
        by_cases hm2 : maxId (store ++ ins) = ""
        · have hmle : ml.Id = "" := eq_empty_of_maxId_ge hmem2 hm2
          have hallempty : ∀ x ∈ log, x.Id = "" := by
            intro x hx
            have hle := idsChain_le_last log hch ml hml1 x hx
            rw [hmle] at hle
            exact strLtb_conn (strLtb_empty_right x.Id) hle
          have hlog : log = [ml] := by
            cases hlg : log with
            | nil => rw [hlg] at hml1; simp at hml1
            | cons a rest =>
              cases hrt : rest with
              | nil =>
                rw [hlg, hrt] at hml1
                obtain rfl : a = ml := by simpa using hml1
                rfl
              | cons b bs =>
                exfalso
                have hchab : strLtb a.Id b.Id = true := by
                  rw [hlg, hrt] at hch
                  exact (Bool.and_eq_true _ _ |>.mp hch).1
                have ha0 : a.Id = "" := hallempty a (by rw [hlg, hrt]; simp)
                have hb0 : b.Id = "" := hallempty b (by rw [hlg, hrt]; simp)
                rw [ha0, hb0, strLtb_irrefl] at hchab
                exact Bool.noConfusion hchab
          rw [hm2, hlog]
          have hbt : (("" : String) == "") = true := by simp
          rw [hbt]
          unfold syncLoop
          rw [if_pos hmle]
          rfl
        · have hb2 : ((maxId (store ++ ins)) == "") = false := by simp [hm2]
          rw [hb2]
          by_cases hmem : maxId (store ++ ins) ∈ log.map Migration.Id
          · obtain ⟨x, hx1, hx2⟩ := List.mem_map.mp hmem
            have hle : strLtb ml.Id (maxId (store ++ ins)) = false := by
              rw [← hx2]
              exact idsChain_le_last log hch ml hml1 x hx1
            have heq : maxId (store ++ ins) = ml.Id := strLtb_conn hge hle
            apply syncLoop_marker_last log (fun _ => false) (maxId (store ++ ins)) log ml hml1
              heq.symm
            intro y hy hyid
            have hlt := idsChain_dropLast_lt log hch ml hml1 y hy
            rw [hyid, heq] at hlt
            rw [strLtb_irrefl] at hlt
            exact Bool.noConfusion hlt
          · exact syncLoop_skip_all log (fun _ => false) (maxId (store ++ ins)) log hmem

/-- Claim C6 witness: a first run from an empty store applies migration A;
the second run against the resulting store is a no-op. -/
theorem sync_idempotent_witness : SyncOK sampleLog1 ["A"] = .ok ([], ["A"]) :=
  sync_idempotent sampleLog1 [] ["A"] [DDL.createTable "t"] (by rfl) (by rfl)
